import Mathlib

/-!
Verification of the jishaku debugging extension (Python source under `src/jishaku/`)
against its natural-language specification.

The development shallowly embeds the code paths relevant to the frozen claims:

* `jishaku/features/python.py` — the `jsk py` evaluation command: scope retention
  (`PythonFeature.scope`, `jsk_python`), result handling and token redaction
  (`jsk_python_result_handling`), and the streaming send loop.
* `jishaku/exception_handling.py` — `send_traceback` and `ReplResponseReactor.__aexit__`.
* `jishaku/features/shell.py` — the `jsk shell` line-streaming loop.
* `jishaku/features/root_command.py` — `jsk cancel` over the task list.
* The `jsk repl` per-channel session set of `jishaku/features/python.py`.

Strings are embedded as `List Char`.  Python's `str.replace` (which replaces all
non-overlapping occurrences, scanning left to right) is embedded as `replaceAll`,
written with an explicit fuel argument so that it is structurally recursive and
evaluates by kernel reduction.  The embedding of `replaceAll` assumes a nonempty
pattern (Python raises `TypeError` for `None` and treats `""` specially; the bot
token in the modelled code paths is a nonempty string).
-/

/-- Fuel-indexed engine for `replaceAll`.  With `fuel ≥ s.length` it scans `s`
left to right; whenever the (nonempty) pattern `p` is a prefix of the rest of
the input, it emits `r` and skips past that occurrence, otherwise it copies one
character.  This is the behaviour of Python's `s.replace(p, r)`. -/
def replaceAllFuel (p r : List Char) : Nat → List Char → List Char
  | _, [] => []
  | 0, s => s
  | fuel + 1, a :: t =>
    if p ≠ [] ∧ p.isPrefixOf (a :: t) then
      r ++ replaceAllFuel p r fuel ((a :: t).drop p.length)
    else
      a :: replaceAllFuel p r fuel t

/-- Embedding of Python's `s.replace(p, r)` for a nonempty pattern `p`. -/
def replaceAll (p r s : List Char) : List Char :=
  replaceAllFuel p r s.length s

/-- The literal replacement text used by `jsk_python_result_handling`
(`python.py` line 109/117). -/
def omittedText : List Char := "[token omitted]".data

/-- The zero-width space substituted for blank results (`python.py` line 114). -/
def zwsp : Char := '​'

/-- The code-block opener `"```py\n"` used when wrapping result and traceback
text for the chat platform (`python.py` line 120/122, `exception_handling.py`
lines 53-58), 6 characters. -/
def pyOpenText : List Char := "```py\n".data

/-- The code-block closer `"\n```"`, 4 characters. -/
def pyCloseText : List Char := "\n```".data

/-- Wrap content in a Python code block: the single-message form
`f"```py\n{content}\n```"`, adding exactly 10 characters. -/
def wrapPy (s : List Char) : List Char :=
  pyOpenText ++ s ++ pyCloseText

/-- Fuel-indexed chunking engine: cuts a text into consecutive pieces of at
most `n` characters. -/
def chunkListFuel (n : Nat) : Nat → List Char → List (List Char)
  | _, [] => []
  | 0, s => [s]
  | fuel + 1, a :: t => (a :: t).take n :: chunkListFuel n fuel ((a :: t).drop n)

/-- Cut a text into consecutive chunks of at most `n` characters. -/
def chunkList (n : Nat) (s : List Char) : List (List Char) :=
  chunkListFuel n s.length s

/-- Modelled from the spec: the paginator layer (`jishaku/paginators.py`, not
under `src/`; the spec describes it as "a pagination/interface layer that
chunks long text into pages matching a max-message-size constraint").  A text
is chunked so that every page — chunk plus the `"```py\n"` / `"\n```"` page
decorations counted against `max_size`, as in `commands.Paginator` — has at
most `maxSize` characters. -/
def paginate (maxSize : Nat) (text : List Char) : List (List Char) :=
  (chunkList (maxSize - pyOpenText.length - pyCloseText.length) text).map wrapPy

/-- What `jsk_python_result_handling` does with a (string) result:
a single chat message, a file upload, or paginator pages. -/
inductive SendAction
  | message (text : List Char)
  | file (content : List Char)
  | pages (ps : List (List Char))
deriving DecidableEq

/-- The text payloads a `SendAction` delivers to the chat platform. -/
def SendAction.sentTexts : SendAction → List (List Char)
  | .message t => [t]
  | .file c => [c]
  | .pages ps => ps

/-- Whether the action is a single message. -/
def SendAction.isMessage : SendAction → Bool
  | .message _ => true
  | _ => false

/-- Whether the action is paginator pages. -/
def SendAction.isPages : SendAction → Bool
  | .pages _ => true
  | _ => false

/-- Characters treated as whitespace by the blank-result check
(`result.strip() == ""`, `python.py` line 113); Python strips a slightly
larger whitespace set, which does not matter for the claims. -/
def pythonWhitespace (c : Char) : Bool :=
  c == ' ' || c == '\n' || c == '\t' || c == '\r'

/-- Embedding of `jsk_python_result_handling` (`python.py` lines 105-138) for
string results (non-strings arrive here as their `repr`, also a string):
replace the bot token by `"[token omitted]"`; if the replaced text fits in
`mss - 10` characters, substitute a zero-width space for blank output, replace
the token again (guarded by token truthiness, line 116) and send one wrapped
message; otherwise upload a file when `use_file_check` passes (`useFile`,
modelled as a flag since `jishaku/paginators.py` is not under `src/`), else
paginate with `max_size = mss - 20`.  `mss` is `MAX_MESSAGE_SIZE`, likewise a
parameter here. -/
def jsk_python_result_handling (token : List Char) (mss : Nat) (useFile : Bool)
    (result : List Char) : SendAction :=
  let r0 := replaceAll token omittedText result
  if r0.length ≤ mss - 10 then
    let r1 := if r0.all pythonWhitespace then [zwsp] else r0
    let r2 := if token ≠ [] then replaceAll token omittedText r1 else r1
    SendAction.message (wrapPy r2)
  else if useFile then
    SendAction.file r0
  else
    SendAction.pages (paginate (mss - 20) r0)

/-- What `send_traceback` does with a formatted traceback text. -/
inductive TbAction
  | reply (text : List Char)
  | pages (ps : List (List Char))
deriving DecidableEq

/-- The text payloads a `TbAction` delivers to the chat platform. -/
def TbAction.texts : TbAction → List (List Char)
  | .reply t => [t]
  | .pages ps => ps

/-- Whether the traceback went out as a single reply. -/
def TbAction.isReply : TbAction → Bool
  | .reply _ => true
  | _ => false

/-- Whether the traceback was paginated. -/
def TbAction.isPages : TbAction → Bool
  | .pages _ => true
  | _ => false

/-- Embedding of the dispatch in `send_traceback` (`exception_handling.py`
lines 50-65): a traceback of at most `mss - 10` characters goes out as one
wrapped reply, anything longer through a paginator with
`max_size = mss - 20`. -/
def send_traceback_action (mss : Nat) (content : List Char) : TbAction :=
  if content.length ≤ mss - 10 then
    TbAction.reply (wrapPy content)
  else
    TbAction.pages (paginate (mss - 20) content)

/-- The exception kinds `ReplResponseReactor.__aexit__` distinguishes
(`exception_handling.py` line 141). -/
inductive ExcKind
  | syntaxError
  | timeoutErr
  | timeoutExpired
  | otherErr
deriving DecidableEq

/-- `SyntaxError`, `asyncio.TimeoutError` and `subprocess.TimeoutExpired` get
the short-traceback treatment. -/
def isShortKind : ExcKind → Bool
  | .syntaxError => true
  | .timeoutErr => true
  | .timeoutExpired => true
  | .otherErr => false

/-- Traceback destinations: the channel of the triggering message, the
message author, or a destination configured by the traceback-destination
flag. -/
inductive Dest
  | channel
  | author
  | custom (id : Nat)
deriving DecidableEq

/-- White heavy check mark. -/
def checkMarkEmoji : Char := '✅'

/-- The error emoji `__aexit__` picks per exception kind: heavy exclamation
mark for syntax errors, alarm clock for timeouts, double exclamation mark
otherwise (`exception_handling.py` lines 150, 161). -/
def errorEmoji (k : ExcKind) : Char :=
  if isShortKind k then
    if k = ExcKind.syntaxError then '❗' else '⏰'
  else '‼'

/-- Embedding of `attempt_add_reaction` (`exception_handling.py` lines
95-109): no reaction at all under the `NO_REACTION` flag.  The silent
swallowing of `discord.HTTPException` is an I/O failure outside this model. -/
def attempt_add_reaction (noReaction : Bool) (e : Char) : Option Char :=
  if noReaction then none else some e

/-- The observable effects of `ReplResponseReactor.__aexit__`: the boolean it
returns (`true` absorbs the exception), the reaction added to the triggering
message, and where (and with which verbosity) the traceback is sent. -/
structure AexitEffects where
  handled : Bool
  reaction : Option Char
  tb : Option (Dest × Nat)
deriving DecidableEq

/-- Embedding of `ReplResponseReactor.__aexit__` (`exception_handling.py`
lines 130-168).  `tbDest` is the value of `Flags.traceback_destination`
(`none` when the flag is unset, in which case the `or` chains fall back to the
message channel resp. the message author).  The emoji reaction is attempted
only when the traceback destination differs from the triggering message's
channel (lines 145, 159). -/
def aexit (noReaction : Bool) (tbDest : Option Dest) (exc : Option ExcKind) :
    AexitEffects :=
  match exc with
  | none =>
    { handled := false
      reaction := attempt_add_reaction noReaction checkMarkEmoji
      tb := none }
  | some k =>
    if isShortKind k then
      let dest := tbDest.getD Dest.channel
      { handled := true
        reaction :=
          if dest ≠ Dest.channel then attempt_add_reaction noReaction (errorEmoji k)
          else none
        tb := some (dest, 0) }
    else
      let dest := tbDest.getD Dest.author
      { handled := true
        reaction :=
          if dest ≠ Dest.channel then attempt_add_reaction noReaction (errorEmoji k)
          else none
        tb := some (dest, 8) }

/-- Modelled from the spec: the REPL `Scope` (`jishaku/repl/scope.py`, not
under `src/`; the spec calls it "a persistent scope" that snippets execute
against).  Embedded as an association list of variable bindings; the value
type is simplified to `Nat`. -/
abbrev ReplScope := List (String × Nat)

/-- Bind `k` to `v` in a scope, overwriting any previous binding. -/
def scopeSet (sc : ReplScope) (k : String) (v : Nat) : ReplScope :=
  (k, v) :: sc.filter (fun kv => kv.1 ≠ k)

/-- Apply a list of bindings in order. -/
def scopeSetMany (sc : ReplScope) (d : ReplScope) : ReplScope :=
  d.foldl (fun s kv => scopeSet s kv.1 kv.2) sc

/-- Look a variable up in a scope. -/
def scopeLookup (sc : ReplScope) (k : String) : Option Nat :=
  (sc.find? (fun kv => kv.1 == k)).map (fun kv => kv.2)

/-- Modelled from the spec: `Scope.clear_intersection` (called at
`python.py` line 194): after an invocation the context variables of
`arg_dict` are dropped from the scope again. -/
def clear_intersection (sc d : ReplScope) : ReplScope :=
  sc.filter (fun kv => (d.find? (fun kv2 => kv2.1 == kv.1)).isNone)

/-- The state of `PythonFeature` relevant to scope retention
(`python.py` lines 37-42): the internal `_scope`, the `retain` flag and the
last result. -/
structure PythonFeature where
  scopeInternal : ReplScope
  retain : Bool
  last_result : Option Nat
deriving DecidableEq

/-- Embedding of the `PythonFeature.scope` property (`python.py` lines
44-55): the stored scope when retention is on, otherwise a brand-new empty
`Scope`. -/
def PythonFeature.scope (f : PythonFeature) : ReplScope :=
  if f.retain then f.scopeInternal else []

/-- Embedding of one `jsk py` invocation's effect on the scope (`python.py`
lines 166-194): take `self.scope`, let the executor seed it with `arg_dict`
and run the snippet (modelled as the bindings `assigns` it performs), then
`clear_intersection` the `arg_dict` entries away.  When retention is on the
scope object is the stored `_scope`, so the mutations persist; otherwise the
fresh scope is discarded with the invocation. -/
def jsk_python (f : PythonFeature) (argDict : ReplScope) (assigns : ReplScope) :
    PythonFeature :=
  let sc := f.scope
  let sc1 := scopeSetMany (scopeSetMany sc argDict) assigns
  let sc2 := clear_intersection sc1 argDict
  if f.retain then { f with scopeInternal := sc2 } else f

/-- Embedding of the send loop of `jsk_python` (`python.py` lines 182-191):
fold over the results yielded by the executor (`none` embeds Python `None`).
Returns the final `last_result` and the list of results forwarded to the
result handler, in yield order. -/
def jsk_python_loop (lastResult : Option Nat) :
    List (Option Nat) → Option Nat × List Nat
  | [] => (lastResult, [])
  | none :: rest => jsk_python_loop lastResult rest
  | some v :: rest =>
    let p := jsk_python_loop (some v) rest
    (p.1, v :: p.2)

/-- The status line appended after the shell stream ends
(`shell.py` line 56). -/
def status_line (code : Int) : List Char :=
  "\n[status] Return code ".data ++ (toString code).data

/-- The `jsk_shell` line loop (`shell.py` lines 51-56) with an explicit
iteration index: before appending the `i`-th streamed line the loop returns
immediately if the paginator interface reports closed (`closed i`); when the
stream is exhausted exactly one status line is appended. -/
def jsk_shell_go (closed : Nat → Bool) (code : Int) :
    Nat → List (List Char) → List (List Char)
  | _, [] => [status_line code]
  | i, l :: rest =>
    if closed i then [] else l :: jsk_shell_go closed code (i + 1) rest

/-- Embedding of `jsk_shell` (`shell.py` lines 28-56): the lines appended to
the paginator interface, given the streamed `lines`, the per-iteration closed
observations and the process return code. -/
def jsk_shell (closed : Nat → Bool) (code : Int) (lines : List (List Char)) :
    List (List Char) :=
  jsk_shell_go closed code 0 lines

/-- A jishaku command task: its display `index` and an identity tag
distinguishing task objects. -/
structure JskTask where
  index : Int
  tid : Nat
deriving DecidableEq

/-- The argument of `jsk cancel`: `typing.Union[int, str]`. -/
inductive CancelArg
  | intArg (i : Int)
  | strArg (s : String)
deriving DecidableEq

/-- The observable outcome of `jsk cancel`: which tasks had `.task.cancel()`
called, or which message was sent instead. -/
inductive CancelOutcome
  | noTasks
  | cancelledAll (ts : List JskTask)
  | badArgument
  | cancelledOne (t : JskTask)
  | unknownTask
deriving DecidableEq

/-- Embedding of `jsk_cancel` (`root_command.py` lines 200-235): with no
tasks, report so; on the literal `"~"`, cancel every task and clear the list;
on any other string, raise `BadArgument`; on `-1`, pop and cancel the last
task; otherwise look the index up with `discord.utils.get`, remove and cancel
the found task, or report an unknown task leaving the list unchanged. -/
def jsk_cancel (tasks : List JskTask) (arg : CancelArg) :
    List JskTask × CancelOutcome :=
  match tasks, arg with
  | [], _ => ([], CancelOutcome.noTasks)
  | t :: ts, CancelArg.strArg s =>
    if s = "~" then ([], CancelOutcome.cancelledAll (t :: ts))
    else (t :: ts, CancelOutcome.badArgument)
  | t :: ts, CancelArg.intArg i =>
    if i = -1 then
      ((t :: ts).dropLast,
        CancelOutcome.cancelledOne ((t :: ts).getLast (List.cons_ne_nil t ts)))
    else
      match (t :: ts).find? (fun a => a.index == i) with
      | some task => ((t :: ts).erase task, CancelOutcome.cancelledOne task)
      | none => (t :: ts, CancelOutcome.unknownTask)

/-- One iteration input of the `jsk repl` message loop (`python.py` lines
223-256): either the 10-minute `wait_for` timeout, or an accepted message
whose content has already passed `codeblock_converter`. -/
inductive ReplEvent
  | timeout
  | msg (content : String)
deriving DecidableEq

/-- How a `jsk repl` run ended (`pending` embeds a loop that is still waiting
for input when the modelled event list runs out). -/
inductive ReplOutcome
  | refused
  | exited
  | timedOut
  | pending
deriving DecidableEq

/-- The `jsk repl` message loop (`python.py` lines 223-256): a timeout or an
`exit()`/`quit()` input removes the channel from the session set and stops;
every other input (including the bare `exit`/`quit` hint) leaves the session
set untouched and continues. -/
def repl_loop (chan : Nat) : List ReplEvent → List Nat → List Nat × ReplOutcome
  | [], s => (s, ReplOutcome.pending)
  | ReplEvent.timeout :: _, s => (s.erase chan, ReplOutcome.timedOut)
  | ReplEvent.msg c :: rest, s =>
    if c = "exit()" ∨ c = "quit()" then (s.erase chan, ReplOutcome.exited)
    else repl_loop chan rest s

/-- Embedding of `jsk_repl` (`python.py` lines 196-256): refuse when the
channel already has a session (lines 207-209), otherwise add the channel id
to the session set (line 217) and run the message loop. -/
def jsk_repl (sessions : List Nat) (chan : Nat) (events : List ReplEvent) :
    List Nat × ReplOutcome :=
  if chan ∈ sessions then (sessions, ReplOutcome.refused)
  else repl_loop chan events (chan :: sessions)

/-- Characters a bot token must avoid for the redaction in
`jsk_python_result_handling` to be watertight: the replacement text itself,
the code-block decorations, and the zero-width space (real Discord tokens are
long base64/dot strings, but nothing in the code enforces this). -/
def forbiddenTokenChars : List Char :=
  omittedText ++ pyOpenText ++ pyCloseText ++ [zwsp]

/-- Decomposition of an occurrence inside an append: the occurrence lies in
the left part, in the right part, or straddles the junction. -/
theorem isInfix_append_cases {α : Type} {p l1 l2 : List α} (h : p <:+: l1 ++ l2) :
    p <:+: l1 ∨ p <:+: l2 ∨
      ∃ p1 p2, p = p1 ++ p2 ∧ p1 ≠ [] ∧ p2 ≠ [] ∧ p1 <:+ l1 ∧ p2 <+: l2 := by
  obtain ⟨s, t, hst⟩ := h
  rcases List.append_eq_append_iff.mp hst with ⟨a, ha1, ha2⟩ | ⟨c, hc1, hc2⟩
  · exact Or.inl ⟨s, a, by rw [ha1, List.append_assoc]⟩
  · rcases List.append_eq_append_iff.mp hc1 with ⟨x, hx1, hx2⟩ | ⟨y, hy1, hy2⟩
    · by_cases hxe : x = []
      · subst hxe
        rw [List.nil_append] at hx2
        refine Or.inr (Or.inl ⟨[], t, ?_⟩)
        rw [List.nil_append, hx2, ← hc2]
      · by_cases hce : c = []
        · subst hce
          rw [List.append_nil] at hx2
          exact Or.inl ⟨s, [], by rw [List.append_nil, hx2, ← hx1]⟩
        · exact Or.inr (Or.inr ⟨x, c, hx2, hxe, hce,
            ⟨s, hx1.symm⟩, ⟨t, hc2.symm⟩⟩)
    · refine Or.inr (Or.inl ⟨y, t, ?_⟩)
      rw [← hy2, ← hc2]

/-- A nonempty pattern whose characters avoid both decorations cannot occur in
a decorated text whose core it does not occur in. -/
theorem not_isInfix_wrap {p w1 w2 x : List Char} (hp : p ≠ [])
    (h1 : ∀ c ∈ p, c ∉ w1) (h2 : ∀ c ∈ p, c ∉ w2) (hx : ¬ p <:+: x) :
    ¬ p <:+: w1 ++ x ++ w2 := by
  intro h
  have hhead : p.head hp ∈ p := List.head_mem hp
  rw [List.append_assoc] at h
  rcases isInfix_append_cases h with h' | h' | ⟨p1, p2, hpp, hp1, hp2, hs1, hs2⟩
  · exact h1 _ hhead (h'.subset hhead)
  · rcases isInfix_append_cases h' with h'' | h'' | ⟨q1, q2, hqq, hq1, hq2, ht1, ht2⟩
    · exact hx h''
    · exact h2 _ hhead (h''.subset hhead)
    · have hm : q2.head hq2 ∈ p := by
        rw [hqq]
        exact List.mem_append_right _ (List.head_mem hq2)
      exact h2 _ hm (ht2.subset (List.head_mem hq2))
  · have hm : p1.head hp1 ∈ p := by
      rw [hpp]
      exact List.mem_append_left _ (List.head_mem hp1)
    exact h1 _ hm (hs1.subset (List.head_mem hp1))

/-- Any prefix of a replacement output built from pattern characters only is
already a prefix of the input: the output can only start with input text or
with the (character-disjoint) replacement text. -/
theorem replaceAllFuel_prefix_transfer {p r : List Char} (hr : r ≠ [])
    (hd : ∀ c ∈ p, c ∉ r) :
    ∀ fuel s q, (∀ c ∈ q, c ∈ p) → q <+: replaceAllFuel p r fuel s → q <+: s := by
  intro fuel
  induction fuel with
  | zero =>
    intro s q hq hpre
    cases s with
    | nil => simpa [replaceAllFuel] using hpre
    | cons a t => simpa [replaceAllFuel] using hpre
  | succ f ih =>
    intro s q hq hpre
    cases s with
    | nil => simpa [replaceAllFuel] using hpre
    | cons a t =>
      by_cases hc : p ≠ [] ∧ p.isPrefixOf (a :: t)
      · simp only [replaceAllFuel] at hpre
        rw [if_pos hc] at hpre
        cases q with
        | nil => exact List.nil_prefix
        | cons b q' =>
          exfalso
          cases r with
          | nil => exact hr rfl
          | cons c r' =>
            rw [List.cons_append] at hpre
            have hb : b = c := (List.cons_prefix_cons.mp hpre).1
            have hbp : b ∈ p := hq b (List.mem_cons_self b q')
            have hbr : b ∈ c :: r' := by
              rw [hb]
              exact List.mem_cons_self c r'
            exact hd b hbp hbr
      · simp only [replaceAllFuel] at hpre
        rw [if_neg hc] at hpre
        cases q with
        | nil => exact List.nil_prefix
        | cons b q' =>
          obtain ⟨hb, hq'⟩ := List.cons_prefix_cons.mp hpre
          have ht := ih t q' (fun c hcq => hq c (List.mem_cons_of_mem _ hcq)) hq'
          exact List.cons_prefix_cons.mpr ⟨hb, ht⟩

/-- Core redaction property of `str.replace`: when the nonempty pattern
shares no character with the nonempty replacement text, the pattern does not
occur in the output at all. -/
theorem replaceAllFuel_no_occurrence {p r : List Char} (hp : p ≠ []) (hr : r ≠ [])
    (hd : ∀ c ∈ p, c ∉ r) :
    ∀ fuel s, s.length ≤ fuel → ¬ p <:+: replaceAllFuel p r fuel s := by
  intro fuel
  induction fuel with
  | zero =>
    intro s hs h
    have hse : s = [] := List.length_eq_zero.mp (Nat.le_zero.mp hs)
    subst hse
    simp only [replaceAllFuel] at h
    exact List.not_mem_nil _ (h.subset (List.head_mem hp))
  | succ f ih =>
    intro s hs h
    cases s with
    | nil =>
      simp only [replaceAllFuel] at h
      exact List.not_mem_nil _ (h.subset (List.head_mem hp))
    | cons a t =>
      by_cases hc : p ≠ [] ∧ p.isPrefixOf (a :: t)
      · simp only [replaceAllFuel] at h
        rw [if_pos hc] at h
        rcases isInfix_append_cases h with h' | h' | ⟨p1, p2, hpp, hp1, hp2, hs1, hs2⟩
        · exact hd _ (List.head_mem hp) (h'.subset (List.head_mem hp))
        · refine ih _ ?_ h'
          have hpl : 1 ≤ p.length := List.length_pos.mpr hp
          rw [List.length_drop]
          simp only [List.length_cons] at hs ⊢
          omega
        · refine hd (p1.head hp1) ?_ (hs1.subset (List.head_mem hp1))
          rw [hpp]
          exact List.mem_append_left _ (List.head_mem hp1)
      · simp only [replaceAllFuel] at h
        rw [if_neg hc] at h
        rcases List.infix_cons_iff.mp h with hpre | htail
        · cases p with
          | nil => exact hp rfl
          | cons b p' =>
            obtain ⟨hb, hp'⟩ := List.cons_prefix_cons.mp hpre
            have ht := replaceAllFuel_prefix_transfer hr hd f t p'
              (fun c hcp => List.mem_cons_of_mem _ hcp) hp'
            exact hc ⟨hp, List.isPrefixOf_iff_prefix.mpr
              (List.cons_prefix_cons.mpr ⟨hb, ht⟩)⟩
        · refine ih t ?_ htail
          simp only [List.length_cons] at hs
          omega

/-- When the pattern does not occur in the input, `str.replace` leaves the
input unchanged. -/
theorem replaceAllFuel_eq_self {p r : List Char} :
    ∀ fuel s, ¬ p <:+: s → replaceAllFuel p r fuel s = s := by
  intro fuel
  induction fuel with
  | zero => intro s h; cases s <;> simp [replaceAllFuel]
  | succ f ih =>
    intro s h
    cases s with
    | nil => simp [replaceAllFuel]
    | cons a t =>
      have hc : ¬ (p ≠ [] ∧ p.isPrefixOf (a :: t)) := by
        rintro ⟨hp, hpre⟩
        exact h (List.isPrefixOf_iff_prefix.mp hpre).isInfix
      simp only [replaceAllFuel]
      rw [if_neg hc, ih t (fun ht => h (List.infix_cons_iff.mpr (Or.inr ht)))]

/-- `replaceAll` output contains no occurrence of a pattern that is
character-disjoint from the replacement text. -/
theorem replaceAll_no_occurrence {p r : List Char} (hp : p ≠ []) (hr : r ≠ [])
    (hd : ∀ c ∈ p, c ∉ r) (s : List Char) : ¬ p <:+: replaceAll p r s :=
  replaceAllFuel_no_occurrence hp hr hd s.length s le_rfl

/-- `replaceAll` is the identity on pattern-free input. -/
theorem replaceAll_eq_self {p r s : List Char} (h : ¬ p <:+: s) :
    replaceAll p r s = s :=
  replaceAllFuel_eq_self s.length s h

/-- Every chunk produced by the chunking engine is a contiguous piece of the
input text. -/
theorem chunkListFuel_isInfix {n : Nat} :
    ∀ fuel s c, c ∈ chunkListFuel n fuel s → c <:+: s := by
  intro fuel
  induction fuel with
  | zero =>
    intro s c hc
    cases s with
    | nil => simp [chunkListFuel] at hc
    | cons a t =>
      simp only [chunkListFuel, List.mem_singleton] at hc
      subst hc
      exact List.infix_refl _
  | succ f ih =>
    intro s c hc
    cases s with
    | nil => simp [chunkListFuel] at hc
    | cons a t =>
      simp only [chunkListFuel, List.mem_cons] at hc
      rcases hc with rfl | hc
      · have hm := List.take_prefix n (a :: t)
        exact hm.isInfix
      · have h1 := ih _ c hc
        have h2 := List.drop_suffix n (a :: t)
        exact h1.trans h2.isInfix

/-- With positive capacity and sufficient fuel, every chunk has at most `n`
characters. -/
theorem chunkListFuel_length {n : Nat} (hn : 1 ≤ n) :
    ∀ fuel s c, s.length ≤ fuel → c ∈ chunkListFuel n fuel s → c.length ≤ n := by
  intro fuel
  induction fuel with
  | zero =>
    intro s c hs hc
    have hse : s = [] := List.length_eq_zero.mp (Nat.le_zero.mp hs)
    subst hse
    simp [chunkListFuel] at hc
  | succ f ih =>
    intro s c hs hc
    cases s with
    | nil => simp [chunkListFuel] at hc
    | cons a t =>
      simp only [chunkListFuel, List.mem_cons] at hc
      rcases hc with rfl | hc
      · simp only [List.length_take_le]
      · refine ih _ c ?_ hc
        rw [List.length_drop]
        simp only [List.length_cons] at hs ⊢
        omega

/-- Every page the paginator produces respects its `max_size`. -/
theorem paginate_page_length (maxSize : Nat) (hm : 11 ≤ maxSize) :
    ∀ text pg, pg ∈ paginate maxSize text → pg.length ≤ maxSize := by
  intro text pg hpg
  simp only [paginate, List.mem_map] at hpg
  obtain ⟨c, hc, rfl⟩ := hpg
  rw [chunkList] at hc
  have ho : pyOpenText.length = 6 := rfl
  have hcl : pyCloseText.length = 4 := rfl
  have hlen : c.length ≤ maxSize - pyOpenText.length - pyCloseText.length :=
    chunkListFuel_length (by rw [ho, hcl]; omega) text.length text c le_rfl hc
  rw [ho, hcl] at hlen
  simp only [wrapPy, List.length_append, ho, hcl]
  omega

/-- Every page the paginator produces wraps a contiguous piece of the
paginated text in the page decorations. -/
theorem paginate_mem_struct {maxSize : Nat} {text pg : List Char}
    (hpg : pg ∈ paginate maxSize text) :
    ∃ c, c <:+: text ∧ pg = wrapPy c := by
  simp only [paginate, List.mem_map] at hpg
  obtain ⟨c, hc, rfl⟩ := hpg
  rw [chunkList] at hc
  exact ⟨c, chunkListFuel_isInfix text.length text c hc, rfl⟩

/-- Claim C4, counterexample: the delivered text CAN contain the bot token.
With the (pathological) token `"token"` — a substring of the replacement text
`"[token omitted]"` — the result `"token"` is replaced, yet the message
delivered to the chat still contains the token. -/
theorem jsk_python_result_token_leak :
    "token".data <:+:
      ((jsk_python_result_handling "token".data 2000 false
        "token".data).sentTexts.headD []) := by
  decide

/-- Claim C4 (amended): every occurrence of the bot token in a result is
replaced with `"[token omitted]"`, and — provided the token is nonempty and
shares no character with the replacement text, the code-block decorations or
the zero-width space (true of real Discord tokens) — no text the result
handler delivers to the chat platform contains the token. -/
theorem jsk_python_result_no_token (token result : List Char) (mss : Nat)
    (useFile : Bool) (ht : token ≠ [])
    (hd : ∀ c ∈ token, c ∉ forbiddenTokenChars) :
    ∀ t ∈ (jsk_python_result_handling token mss useFile result).sentTexts,
      ¬ token <:+: t := by
  have hrne : omittedText ≠ [] := by decide
  have hdo : ∀ c ∈ token, c ∉ omittedText := fun c hc hm =>
    hd c hc (List.mem_append_left _ (List.mem_append_left _ (List.mem_append_left _ hm)))
  have hd1 : ∀ c ∈ token, c ∉ pyOpenText := fun c hc hm =>
    hd c hc (List.mem_append_left _ (List.mem_append_left _ (List.mem_append_right _ hm)))
  have hd2 : ∀ c ∈ token, c ∉ pyCloseText := fun c hc hm =>
    hd c hc (List.mem_append_left _ (List.mem_append_right _ hm))
  intro t htmem
  simp only [jsk_python_result_handling] at htmem
  rw [if_pos ht] at htmem
  split at htmem
  · simp only [SendAction.sentTexts, List.mem_singleton] at htmem
    subst htmem
    exact not_isInfix_wrap ht hd1 hd2 (replaceAll_no_occurrence ht hrne hdo _)
  · split at htmem
    · simp only [SendAction.sentTexts, List.mem_singleton] at htmem
      subst htmem
      exact replaceAll_no_occurrence ht hrne hdo _
    · simp only [SendAction.sentTexts] at htmem
      obtain ⟨c, hcinf, rfl⟩ := paginate_mem_struct htmem
      exact not_isInfix_wrap ht hd1 hd2
        (fun hcc => replaceAll_no_occurrence ht hrne hdo result (hcc.trans hcinf))

/-- Claim C4, witness: with the token `"SECRET"` and the result
`"my SECRET value"` the delivered message does not contain the token. -/
theorem jsk_python_result_no_token_witness :
    ¬ "SECRET".data <:+:
      ((jsk_python_result_handling "SECRET".data 2000 false
        "my SECRET value".data).sentTexts.headD []) :=
  jsk_python_result_no_token "SECRET".data "my SECRET value".data 2000 false
    (by decide) (by decide) _ (by decide)

/-- Claim C2, counterexample: a result longer than `MAX_MESSAGE_SIZE - 10` is
not necessarily split by a paginator — when `use_file_check` passes
(`python.py` line 125) it is sent as a file upload instead, so the claimed
single-message/paginator dichotomy fails. -/
theorem jsk_python_result_file_not_pages :
    (jsk_python_result_handling "SECRET".data 40 true
        (List.replicate 31 'a')).isMessage = false ∧
    (jsk_python_result_handling "SECRET".data 40 true
        (List.replicate 31 'a')).isPages = false := by
  decide

/-- Claim C2 (amended): tracebacks of at most `mss - 10` characters go out as
one reply and longer ones through a paginator with `max_size = mss - 20`;
results — whatever the file-upload check decides — go out as one message when
the redacted text fits in `mss - 10` characters, longer ones as a file upload
when `use_file_check` passes and through the same paginator otherwise; and
(for a token that does not overlap the replacement text) every message and
every page so delivered fits in the platform's `mss`-character message
limit. -/
theorem message_dispatch_size_bounds (mss : Nat) (content token result : List Char)
    (useFile : Bool) (hmss : 31 ≤ mss) (ht : token ≠ [])
    (hd : ∀ c ∈ token, c ∉ omittedText ++ [zwsp]) :
    (∀ t ∈ (send_traceback_action mss content).texts, t.length ≤ mss) ∧
    (content.length ≤ mss - 10 →
      (send_traceback_action mss content).isReply = true) ∧
    (¬ content.length ≤ mss - 10 →
      send_traceback_action mss content =
        TbAction.pages (paginate (mss - 20) content)) ∧
    ((replaceAll token omittedText result).length ≤ mss - 10 →
      (jsk_python_result_handling token mss useFile result).isMessage = true) ∧
    (¬ (replaceAll token omittedText result).length ≤ mss - 10 → useFile = true →
      jsk_python_result_handling token mss useFile result =
        SendAction.file (replaceAll token omittedText result)) ∧
    (¬ (replaceAll token omittedText result).length ≤ mss - 10 → useFile = false →
      jsk_python_result_handling token mss useFile result =
        SendAction.pages (paginate (mss - 20) (replaceAll token omittedText result))) ∧
    (∀ t ∈ (jsk_python_result_handling token mss useFile result).sentTexts,
      ((jsk_python_result_handling token mss useFile result).isMessage = true ∨
        (jsk_python_result_handling token mss useFile result).isPages = true) →
      t.length ≤ mss) := by
  have ho : pyOpenText.length = 6 := rfl
  have hcp : pyCloseText.length = 4 := rfl
  have hrne : omittedText ≠ [] := by decide
  have hdo : ∀ c ∈ token, c ∉ omittedText := fun c hc hm =>
    hd c hc (List.mem_append_left _ hm)
  have hzw : zwsp ∉ token := fun hzz =>
    hd zwsp hzz (List.mem_append_right _ (List.mem_singleton.mpr rfl))
  have hwrap : ∀ s : List Char, (wrapPy s).length = s.length + 10 := by
    intro s
    simp only [wrapPy, List.length_append, ho, hcp]
    omega
  have hzfree : ¬ token <:+: [zwsp] := by
    intro hI
    have hmem := hI.subset (List.head_mem ht)
    rw [List.mem_singleton] at hmem
    exact hzw (hmem ▸ List.head_mem ht)
  refine ⟨?_, ?_, ?_, ?_, ?_, ?_, ?_⟩
  · intro t htmem
    simp only [send_traceback_action] at htmem
    split at htmem
    · simp only [TbAction.texts, List.mem_singleton] at htmem
      subst htmem
      rw [hwrap]
      omega
    · simp only [TbAction.texts] at htmem
      have := paginate_page_length (mss - 20) (by omega) content t htmem
      omega
  · intro h
    simp [send_traceback_action, h, TbAction.isReply]
  · intro h
    simp [send_traceback_action, h]
  · intro h
    simp [jsk_python_result_handling, h, SendAction.isMessage]
  · intro h hU
    simp [jsk_python_result_handling, h, hU]
  · intro h hU
    simp [jsk_python_result_handling, h, hU]
  · intro t htmem hcond
    simp only [jsk_python_result_handling] at htmem hcond
    rw [if_pos ht] at htmem
    by_cases h1 : (replaceAll token omittedText result).length ≤ mss - 10
    · rw [if_pos h1] at htmem
      simp only [SendAction.sentTexts, List.mem_singleton] at htmem
      subst htmem
      rw [hwrap]
      split
      · rw [replaceAll_eq_self hzfree]
        simp only [List.length_singleton]
        omega
      · rw [replaceAll_eq_self (replaceAll_no_occurrence ht hrne hdo result)]
        omega
    · rw [if_neg h1] at htmem hcond
      cases useFile with
      | true =>
        simp [SendAction.isMessage, SendAction.isPages] at hcond
      | false =>
        simp only [Bool.false_eq_true, if_false, SendAction.sentTexts] at htmem
        have := paginate_page_length (mss - 20) (by omega) _ t htmem
        omega

/-- Claim C2, witness: at `MAX_MESSAGE_SIZE = 2000` a short traceback goes
out as a single reply and a short result as a single message; at
`MAX_MESSAGE_SIZE = 40` a 31-character result with the file check passing
goes out as a file upload. -/
theorem message_dispatch_size_bounds_witness :
    (send_traceback_action 2000 "Traceback (most recent call last)".data).isReply
        = true ∧
    (jsk_python_result_handling "SECRET".data 2000 false
        "hello".data).isMessage = true ∧
    jsk_python_result_handling "SECRET".data 40 true (List.replicate 31 'a') =
      SendAction.file (List.replicate 31 'a') :=
  ⟨(message_dispatch_size_bounds 2000 "Traceback (most recent call last)".data
      "SECRET".data "hello".data false (by decide) (by decide) (by decide)).2.1
        (by decide),
   (message_dispatch_size_bounds 2000 "Traceback (most recent call last)".data
      "SECRET".data "hello".data false (by decide) (by decide) (by decide)).2.2.2.1
        (by decide),
   ((message_dispatch_size_bounds 40 "x".data "SECRET".data (List.replicate 31 'a')
      true (by decide) (by decide) (by decide)).2.2.2.2.1 (by decide) rfl).trans
        (by decide)⟩

/-- Claim C3: whenever wrapped code raises, `__aexit__` returns `True`
(absorbing the exception); the traceback goes with verbosity 0 to the channel
of the triggering message for `SyntaxError`/timeout kinds, and with verbosity
8 to the message author for every other exception, unless the
traceback-destination flag overrides the destination; and a traceback longer
than the single-message limit is paginated into pages within that limit. -/
theorem repl_reactor_absorbs_and_routes (noR : Bool) (tbD : Option Dest)
    (k : ExcKind) (mss : Nat) (content : List Char) (hmss : 31 ≤ mss) :
    (aexit noR tbD (some k)).handled = true ∧
    ((aexit noR tbD (some k)).tb =
      some (tbD.getD (if isShortKind k then Dest.channel else Dest.author),
        if isShortKind k then 0 else 8)) ∧
    (¬ content.length ≤ mss - 10 →
      send_traceback_action mss content =
        TbAction.pages (paginate (mss - 20) content) ∧
      ∀ pg ∈ paginate (mss - 20) content, pg.length ≤ mss) := by
  refine ⟨?_, ?_, ?_⟩
  · cases hk : isShortKind k <;> simp [aexit, hk]
  · cases hk : isShortKind k <;> simp [aexit, hk]
  · intro h
    constructor
    · simp [send_traceback_action, h]
    · intro pg hpg
      have := paginate_page_length (mss - 20) (by omega) content pg hpg
      omega

/-- Claim C3, witness: an ordinary exception with default flags is absorbed
and its verbosity-8 traceback goes to the message author. -/
theorem repl_reactor_absorbs_and_routes_witness :
    (aexit false none (some ExcKind.otherErr)).handled = true ∧
    (aexit false none (some ExcKind.otherErr)).tb = some (Dest.author, 8) :=
  ⟨(repl_reactor_absorbs_and_routes false none ExcKind.otherErr 2000 []
      (by decide)).1,
   (repl_reactor_absorbs_and_routes false none ExcKind.otherErr 2000 []
      (by decide)).2.1⟩

/-- Claim C7, counterexample: with default flags a `SyntaxError` produces NO
reaction at all — the traceback destination is the message's own channel, and
`__aexit__` only reacts when the destination differs from that channel
(`exception_handling.py` line 145), so the claimed error-emoji reaction does
not happen. -/
theorem repl_reactor_no_reaction_on_syntax_error :
    (aexit false none (some ExcKind.syntaxError)).reaction = none := rfl

/-- Claim C7 (amended): unless reactions are disabled, a run without an
exception ends with a white-heavy-check-mark reaction; a run with an
exception ends with the kind's error emoji (exclamation mark for syntax
errors, alarm clock for timeouts, double exclamation mark otherwise) exactly
when the traceback destination differs from the triggering message's channel
— in particular, by default, never for syntax errors and timeouts, whose
tracebacks go to that channel. -/
theorem repl_reactor_reaction_behavior (noR : Bool) (tbD : Option Dest)
    (k : ExcKind) :
    ((aexit noR tbD none).reaction = if noR then none else some checkMarkEmoji) ∧
    ((aexit noR tbD (some k)).reaction =
      if tbD.getD (if isShortKind k then Dest.channel else Dest.author)
            ≠ Dest.channel ∧ noR = false
      then some (errorEmoji k) else none) := by
  constructor
  · cases noR <;> simp [aexit, attempt_add_reaction]
  · cases hk : isShortKind k <;>
      rcases tbD with _ | d <;>
        cases noR <;>
          simp [aexit, hk, attempt_add_reaction]

/-- Claim C1, counterexample: with retention off (the `retain` flag false),
a variable assigned during one `jsk py` invocation is NOT present in the
scope the next invocation uses — `PythonFeature.scope` hands out a fresh
empty scope every time. -/
theorem jsk_python_scope_fresh_when_retain_off :
    scopeLookup
      (PythonFeature.scope (jsk_python ⟨[], false, none⟩ [] [("x", 5)])) "x"
      = none := rfl

/-- Claim C1 (amended): when variable retention is enabled (`retain` true),
a variable assigned during a `jsk py` invocation — one not shadowed by an
`arg_dict` context variable — is still present, with its value, in the scope
the next invocation uses. -/
theorem jsk_python_scope_retained (f : PythonFeature) (argDict : ReplScope)
    (v : String) (x : Nat) (hret : f.retain = true)
    (hv : ∀ kv ∈ argDict, kv.1 ≠ v) :
    scopeLookup (PythonFeature.scope (jsk_python f argDict [(v, x)])) v
      = some x := by
  have hfind : argDict.find? (fun kv2 => kv2.1 == v) = none :=
    List.find?_eq_none.mpr (fun kv hm => by simpa using hv kv hm)
  simp only [jsk_python, hret, if_true, PythonFeature.scope, scopeSetMany,
    List.foldl_cons, List.foldl_nil, scopeSet, clear_intersection,
    List.filter_cons, hfind, Option.isNone_none, if_true, scopeLookup]
  rw [List.find?_cons_of_pos _ (by simp)]
  rfl

/-- Claim C1, witness: a concrete retained assignment survives into the next
invocation's scope. -/
theorem jsk_python_scope_retained_witness :
    scopeLookup
      (PythonFeature.scope (jsk_python ⟨[], true, none⟩ [("_", 0)] [("x", 7)])) "x"
      = some 7 :=
  jsk_python_scope_retained ⟨[], true, none⟩ [("_", 0)] "x" 7 rfl (by decide)

/-- The last element of a nonempty list, expressed through the tail. -/
theorem getLast?_cons_eq {α : Type} (a : α) (l : List α) :
    (a :: l).getLast? = some (l.getLast?.getD a) := by
  cases l <;> simp [List.getLast?]

/-- Claim C5: the `jsk py` send loop skips `None` results (sending nothing
and leaving the stored last result unchanged), and forwards every non-`None`
result to the result handler in yield order, storing the last such result as
the `_` value for the next invocation. -/
theorem jsk_python_loop_stream (lr : Option Nat) (rs : List (Option Nat)) :
    (jsk_python_loop lr rs).2 = rs.filterMap id ∧
    (jsk_python_loop lr rs).1 = ((rs.filterMap id).getLast?).elim lr some := by
  induction rs generalizing lr with
  | nil => simp [jsk_python_loop]
  | cons r rest ih =>
    cases r with
    | none =>
      obtain ⟨ih2, ih1⟩ := ih lr
      constructor
      · simpa [jsk_python_loop, List.filterMap_cons] using ih2
      · simpa [jsk_python_loop, List.filterMap_cons] using ih1
    | some v =>
      obtain ⟨ih2, ih1⟩ := ih (some v)
      constructor
      · simp only [jsk_python_loop, List.filterMap_cons, id]
        exact congrArg (List.cons v) ih2
      · simp only [jsk_python_loop, List.filterMap_cons, id]
        rw [ih1, getLast?_cons_eq]
        cases hL : (rest.filterMap id).getLast? <;> simp [hL]

/-- When the interface is never observed closed, the shell loop appends every
streamed line in order followed by exactly one status line. -/
theorem jsk_shell_go_all_open (closed : Nat → Bool) (code : Int) :
    ∀ (lines : List (List Char)) (i : Nat),
      (∀ j, j < lines.length → closed (i + j) = false) →
      jsk_shell_go closed code i lines = lines ++ [status_line code] := by
  intro lines
  induction lines with
  | nil =>
    intro i h
    simp [jsk_shell_go]
  | cons l rest ih =>
    intro i h
    have h0 : closed i = false := by simpa using h 0 (by simp)
    simp only [jsk_shell_go, h0, Bool.false_eq_true, if_false, List.cons_append]
    rw [ih (i + 1) ?_]
    intro j hj
    have h2 := h (j + 1) (by simp only [List.length_cons]; omega)
    have he : i + (j + 1) = i + 1 + j := by omega
    rw [he] at h2
    exact h2

/-- When the interface is first observed closed before the `k`-th line, the
shell loop appends exactly the first `k` lines and no status line. -/
theorem jsk_shell_go_closed_at (closed : Nat → Bool) (code : Int) :
    ∀ (lines : List (List Char)) (i k : Nat), k < lines.length →
      closed (i + k) = true → (∀ j, j < k → closed (i + j) = false) →
      jsk_shell_go closed code i lines = lines.take k := by
  intro lines
  induction lines with
  | nil =>
    intro i k hk
    simp at hk
  | cons l rest ih =>
    intro i k hk hck hopen
    cases k with
    | zero =>
      rw [Nat.add_zero] at hck
      simp [jsk_shell_go, hck]
    | succ k' =>
      have h0 : closed i = false := by simpa using hopen 0 (Nat.succ_pos k')
      have hk' : k' < rest.length := by
        simp only [List.length_cons] at hk
        omega
      have hck' : closed (i + 1 + k') = true := by
        have he : i + 1 + k' = i + (k' + 1) := by omega
        rw [he]
        exact hck
      have hopen' : ∀ j, j < k' → closed (i + 1 + j) = false := by
        intro j hj
        have h2 := hopen (j + 1) (Nat.succ_lt_succ hj)
        have he : i + 1 + j = i + (j + 1) := by omega
        rw [he]
        exact h2
      simp only [jsk_shell_go, h0, Bool.false_eq_true, if_false, List.take_succ_cons]
      rw [ih (i + 1) k' hk' hck' hopen']

/-- Claim C6: the shell command appends streamed lines to the paginator
interface in arrival order; once the interface is observed closed it returns
immediately, appending no further line and no status line; and when the
stream ends with the interface open, exactly one status line with the process
return code is appended after the lines. -/
theorem jsk_shell_stream (closed : Nat → Bool) (code : Int)
    (lines : List (List Char)) :
    ((∀ j, j < lines.length → closed j = false) →
      jsk_shell closed code lines = lines ++ [status_line code]) ∧
    (∀ k, k < lines.length → closed k = true →
      (∀ j, j < k → closed j = false) →
      jsk_shell closed code lines = lines.take k) := by
  constructor
  · intro h
    exact jsk_shell_go_all_open closed code lines 0 (by simpa using h)
  · intro k hk hck hopen
    exact jsk_shell_go_closed_at closed code lines 0 k hk (by simpa using hck)
      (by simpa using hopen)

/-- Claim C6, witness: with the interface always open both lines and the
status line are appended; with the interface closing before the third line
only the first two lines are appended. -/
theorem jsk_shell_stream_witness :
    jsk_shell (fun _ => false) 3 [['a'], ['b']] = [['a'], ['b']] ++ [status_line 3] ∧
    jsk_shell (fun i => decide (2 ≤ i)) 0 [['a'], ['b'], ['c']] = [['a'], ['b']] :=
  ⟨(jsk_shell_stream (fun _ => false) 3 [['a'], ['b']]).1 (by decide),
   (jsk_shell_stream (fun i => decide (2 ≤ i)) 0 [['a'], ['b'], ['c']]).2 2
     (by decide) (by decide) (by decide)⟩

/-- With pairwise-distinct task indices, `discord.utils.get` (embedded as
`find?`) finds exactly the member task carrying the requested index. -/
theorem find?_index_pairwise :
    ∀ (tasks : List JskTask) (t : JskTask) (i : Int), t ∈ tasks → t.index = i →
      List.Pairwise (fun a b => a.index ≠ b.index) tasks →
      tasks.find? (fun a => a.index == i) = some t := by
  intro tasks
  induction tasks with
  | nil =>
    intro t i hmem
    simp at hmem
  | cons a rest ih =>
    intro t i hmem hidx hpw
    rcases List.mem_cons.mp hmem with rfl | hmem'
    · rw [List.find?_cons_of_pos _ (by simp [hidx])]
    · have hane : a.index ≠ i := by
        have h1 := (List.pairwise_cons.mp hpw).1 t hmem'
        rw [hidx] at h1
        exact h1
      rw [List.find?_cons_of_neg _ (by simp [hane])]
      exact ih t i hmem' hidx (List.pairwise_cons.mp hpw).2

/-- Claim C8: `jsk cancel` cancels and clears every task on the literal `"~"`;
raises `BadArgument` on any other string, leaving the list unchanged; pops and
cancels the last task on `-1`; cancels and removes exactly the task carrying a
present index; and reports an unknown task, leaving the list unchanged, for an
absent index. -/
theorem jsk_cancel_cases (tasks : List JskTask) (t : JskTask) (i : Int)
    (s : String) :
    (tasks ≠ [] →
      jsk_cancel tasks (CancelArg.strArg "~") =
        ([], CancelOutcome.cancelledAll tasks)) ∧
    (tasks ≠ [] → s ≠ "~" →
      jsk_cancel tasks (CancelArg.strArg s) =
        (tasks, CancelOutcome.badArgument)) ∧
    (∀ h : tasks ≠ [],
      jsk_cancel tasks (CancelArg.intArg (-1)) =
        (tasks.dropLast, CancelOutcome.cancelledOne (tasks.getLast h))) ∧
    (tasks ≠ [] → i ≠ -1 → (∀ a ∈ tasks, a.index ≠ i) →
      jsk_cancel tasks (CancelArg.intArg i) =
        (tasks, CancelOutcome.unknownTask)) ∧
    (i ≠ -1 → t ∈ tasks → t.index = i →
      List.Pairwise (fun a b => a.index ≠ b.index) tasks →
      jsk_cancel tasks (CancelArg.intArg i) =
        (tasks.erase t, CancelOutcome.cancelledOne t)) := by
  refine ⟨?_, ?_, ?_, ?_, ?_⟩
  · intro h
    cases tasks with
    | nil => exact absurd rfl h
    | cons a ts => simp [jsk_cancel]
  · intro h hs
    cases tasks with
    | nil => exact absurd rfl h
    | cons a ts => simp [jsk_cancel, hs]
  · intro h
    cases tasks with
    | nil => exact absurd rfl h
    | cons a ts => simp [jsk_cancel]
  · intro h hi hall
    cases tasks with
    | nil => exact absurd rfl h
    | cons a ts =>
      have hfind : (a :: ts).find? (fun b => b.index == i) = none :=
        List.find?_eq_none.mpr (fun b hb => by simpa using hall b hb)
      simp [jsk_cancel, hi, hfind]
  · intro hi hmem hidx hpw
    cases tasks with
    | nil => simp at hmem
    | cons a ts =>
      have hfind := find?_index_pairwise (a :: ts) t i hmem hidx hpw
      simp [jsk_cancel, hi, hfind]

/-- Claim C8, witness: cancelling index 2 in a two-task list removes and
cancels exactly the task with index 2. -/
theorem jsk_cancel_cases_witness :
    jsk_cancel [⟨1, 0⟩, ⟨2, 1⟩] (CancelArg.intArg 2) =
      ([⟨1, 0⟩], CancelOutcome.cancelledOne ⟨2, 1⟩) :=
  ((jsk_cancel_cases [⟨1, 0⟩, ⟨2, 1⟩] ⟨2, 1⟩ 2 "x").2.2.2.2
    (by decide) (by decide) (by decide) (by decide)).trans (by decide)

/-- The repl message loop leaves the session set untouched until it ends, and
removes the channel from it exactly when it ends by timeout or `exit()` /
`quit()`. -/
theorem repl_loop_state (chan : Nat) :
    ∀ (events : List ReplEvent) (s : List Nat),
      repl_loop chan events s = (s, ReplOutcome.pending) ∨
      ((repl_loop chan events s).1 = s.erase chan ∧
        ((repl_loop chan events s).2 = ReplOutcome.timedOut ∨
          (repl_loop chan events s).2 = ReplOutcome.exited)) := by
  intro events
  induction events with
  | nil =>
    intro s
    exact Or.inl rfl
  | cons e rest ih =>
    intro s
    cases e with
    | timeout => exact Or.inr ⟨rfl, Or.inl rfl⟩
    | msg c =>
      by_cases hc : c = "exit()" ∨ c = "quit()"
      · refine Or.inr ⟨?_, Or.inr ?_⟩ <;> simp [repl_loop, hc]
      · simpa [repl_loop, hc] using ih s

/-- Claim C9: invoking `jsk repl` in a channel that already has a session is
refused without starting one; otherwise the channel id is added to the
session set for the session's duration, and removed again when the session
ends by timeout or by an `exit()`/`quit()` input. -/
theorem jsk_repl_session_lifecycle (sessions : List Nat) (chan : Nat)
    (events : List ReplEvent) :
    (chan ∈ sessions →
      jsk_repl sessions chan events = (sessions, ReplOutcome.refused)) ∧
    (chan ∉ sessions → (jsk_repl sessions chan events).2 = ReplOutcome.pending →
      (jsk_repl sessions chan events).1 = chan :: sessions) ∧
    (chan ∉ sessions →
      ((jsk_repl sessions chan events).2 = ReplOutcome.timedOut ∨
        (jsk_repl sessions chan events).2 = ReplOutcome.exited) →
      (jsk_repl sessions chan events).1 = sessions) := by
  refine ⟨?_, ?_, ?_⟩
  · intro h
    simp [jsk_repl, h]
  · intro h hp
    rcases repl_loop_state chan events (chan :: sessions) with heq | ⟨h1, h2⟩
    · rw [jsk_repl, if_neg h, heq]
    · exfalso
      rw [jsk_repl, if_neg h] at hp
      rcases h2 with h2 | h2 <;> rw [h2] at hp <;> simp at hp
  · intro h hout
    rcases repl_loop_state chan events (chan :: sessions) with heq | ⟨h1, h2⟩
    · exfalso
      rw [jsk_repl, if_neg h, heq] at hout
      simp at hout
    · rw [jsk_repl, if_neg h, h1]
      exact List.erase_cons_head chan sessions

/-- Claim C9, witness: a second `jsk repl` in channel 5 is refused; a session
in a fresh channel that times out leaves the session set as it was. -/
theorem jsk_repl_session_lifecycle_witness :
    jsk_repl [5] 5 [ReplEvent.timeout] = ([5], ReplOutcome.refused) ∧
    (jsk_repl [9] 5 [ReplEvent.msg "1+1", ReplEvent.timeout]).1 = [9] :=
  ⟨(jsk_repl_session_lifecycle [5] 5 [ReplEvent.timeout]).1 (by decide),
   (jsk_repl_session_lifecycle [9] 5 [ReplEvent.msg "1+1", ReplEvent.timeout]).2.2
     (by decide) (by decide)⟩
